import Mathlib

/-!
Verification of the pack-expansion matching core and its surrounding
utilities (tagged test arguments, TBD symbol validation) of the Swift
compiler excerpt.

The matcher implementations (`TuplePackMatcher::match`,
`ParamPackMatcher::match`) live in `PackExpansionMatcher.cpp`, which is not
part of the excerpt; only the header `include/swift/AST/PackExpansionMatcher.h`
with the class declarations is. The matcher bodies below are therefore
modelled from the specification's algorithm descriptions (spec sections 4.1
and 4.2). The `Arguments` tagged storage and `validateSymbols` are embedded
directly from their sources.
-/

namespace PackMatcher

/-- One tuple element: an opaque type payload, a label (empty = unlabeled),
and a flag marking a pack-expansion element. Mirrors `TupleTypeElt` as the
matcher views it (spec section 3, Element). -/
structure TupleTypeElt (α : Type) where
  ty : α
  label : String
  isPackExpansion : Bool
  deriving DecidableEq, Repr

/-- One side of a matched pair: either a single payload or a synthesized
aggregate (pack) of payloads absorbed during matching. -/
inductive Side (α : Type) where
  | scalar : α → Side α
  | aggregate : List α → Side α
  deriving DecidableEq, Repr

/-- The result of a match; mirrors `MatchedPair` from
`PackExpansionMatcher.h` (lhs, rhs, and an index into the original
left-hand side). -/
structure MatchedPair (α : Type) where
  lhs : Side α
  rhs : Side α
  idx : Nat
  deriving DecidableEq, Repr

/-- The payloads contributed by one side of a pair. -/
def Side.elems : Side α → List α
  | .scalar a => [a]
  | .aggregate xs => xs

/-- Whether a side is a single scalar payload. -/
def Side.isScalar : Side α → Bool
  | .scalar _ => true
  | .aggregate _ => false

/-- Label compatibility (spec section 4.1): a hard failure requires both
labels non-empty and different; otherwise the two elements may be paired. -/
def labelsOk (a b : String) : Bool :=
  a == "" || b == "" || a == b

/-- The run of elements absorbed by a pack expansion: everything up to (but
not including) the next element carrying a non-empty label. Modelled from
the spec: "absorbs zero or more elements from the other side, stopping just
before the next element that carries a non-empty label". -/
def absorbRun (xs : List (TupleTypeElt α)) : List (TupleTypeElt α) :=
  xs.takeWhile (fun e => e.label == "")

/-- The elements remaining after a pack expansion has absorbed its run. -/
def absorbRest (xs : List (TupleTypeElt α)) : List (TupleTypeElt α) :=
  xs.dropWhile (fun e => e.label == "")

theorem absorbRest_length_le (xs : List (TupleTypeElt α)) :
    (absorbRest xs).length ≤ xs.length := by
  unfold absorbRest
  induction xs with
  | nil => simp
  | cons x xs ih =>
    by_cases h : x.label == ""
    · simp [List.dropWhile, h]
      omega
    · simp [List.dropWhile, h]

/-- The type payloads of a list of tuple elements. -/
def tupleTys (xs : List (TupleTypeElt α)) : List α :=
  xs.map (fun e => e.ty)

/-- Modelled from the spec: `TuplePackMatcher::match` (spec section 4.1),
whose implementation `PackExpansionMatcher.cpp` is not in the excerpt.
Two-pointer structural scan over the two element lists; `i` is the cursor
into the original left-hand side, recorded as `idx` of each emitted pair.
At each step: two scalars are paired positionally subject to the label
rule; a pack expansion facing a scalar (or the end of the other list)
absorbs the other side's unlabeled run into one aggregate; two pack
expansions are paired directly. A leftover scalar facing an exhausted
other side is a structural mismatch (`none`). -/
def tupleMatchAux : Nat → List (TupleTypeElt α) → List (TupleTypeElt α) →
    Option (List (MatchedPair α))
  | _, [], [] => some []
  | i, l :: ls, [] =>
    if l.isPackExpansion then
      (tupleMatchAux (i + 1) ls []).map
        (fun ps => ⟨Side.scalar l.ty, Side.aggregate [], i⟩ :: ps)
    else none
  | i, [], r :: rs =>
    if r.isPackExpansion then
      (tupleMatchAux i [] rs).map
        (fun ps => ⟨Side.aggregate [], Side.scalar r.ty, i⟩ :: ps)
    else none
  | i, l :: ls, r :: rs =>
    if l.isPackExpansion then
      if r.isPackExpansion then
        (tupleMatchAux (i + 1) ls rs).map
          (fun ps => ⟨Side.scalar l.ty, Side.scalar r.ty, i⟩ :: ps)
      else
        (tupleMatchAux (i + 1) ls (absorbRest (r :: rs))).map
          (fun ps =>
            ⟨Side.scalar l.ty, Side.aggregate (tupleTys (absorbRun (r :: rs))), i⟩ :: ps)
    else
      if r.isPackExpansion then
        (tupleMatchAux (i + (absorbRun (l :: ls)).length) (absorbRest (l :: ls)) rs).map
          (fun ps =>
            ⟨Side.aggregate (tupleTys (absorbRun (l :: ls))), Side.scalar r.ty, i⟩ :: ps)
      else
        if labelsOk l.label r.label then
          (tupleMatchAux (i + 1) ls rs).map
            (fun ps => ⟨Side.scalar l.ty, Side.scalar r.ty, i⟩ :: ps)
        else none
termination_by _ ls rs => ls.length + rs.length
decreasing_by
  all_goals simp_wf
  all_goals try omega
  · have := absorbRest_length_le (α := α) (r :: rs)
    simp at this
    omega
  · have := absorbRest_length_le (α := α) (l :: ls)
    simp at this
    omega

/-- Modelled from the spec: entry point of `TuplePackMatcher::match`. -/
def tupleMatch (lhs rhs : List (TupleTypeElt α)) : Option (List (MatchedPair α)) :=
  tupleMatchAux 0 lhs rhs

/-- One function parameter as the matcher views it: an opaque type payload
and the pack-expansion flag. Labels play no role in `ParamPackMatcher`
(spec section 4.2). -/
structure Param (α : Type) where
  ty : α
  isPackExpansion : Bool
  deriving DecidableEq, Repr

/-- The type payloads of a parameter list. -/
def paramTys (xs : List (Param α)) : List α :=
  xs.map (fun e => e.ty)

/-- Index of the first pack-expansion parameter; equals the list length
when no pack expansion is present (spec: "pl or lhs.length"). -/
def firstPackLen (xs : List (Param α)) : Nat :=
  xs.findIdx (fun p => p.isPackExpansion)

/-- Number of trailing parameters after the last pack expansion; equals the
list length when no pack expansion is present. -/
def trailingScalars (xs : List (Param α)) : Nat :=
  xs.reverse.findIdx (fun p => p.isPackExpansion)

/-- Whether a parameter list contains a pack expansion. -/
def hasPack (xs : List (Param α)) : Bool :=
  xs.any (fun p => p.isPackExpansion)

/-- Positional scalar pairs for a common prefix or suffix region, `i` being
the position of the first paired element in the original left list. -/
def scalarPairs : List (Param α) → List (Param α) → Nat → List (MatchedPair α)
  | l :: ls, r :: rs, i =>
    ⟨Side.scalar l.ty, Side.scalar r.ty, i⟩ :: scalarPairs ls rs (i + 1)
  | _, _, _ => []

/-- Length of the common scalar prefix: positional pairs up to the first
pack-expansion boundary on either side (spec section 4.2 step 2). -/
def paramPrefixLen (lhs rhs : List (Param α)) : Nat :=
  min (firstPackLen lhs) (firstPackLen rhs)

/-- Length of the common scalar suffix: trailing scalar pairs after the
pack boundary on each side, never overlapping the prefix (spec section 4.2
step 3; bounded by the elements not already consumed by the prefix). -/
def paramSuffixLen (lhs rhs : List (Param α)) : Nat :=
  min (min (trailingScalars lhs) (trailingScalars rhs))
    (min lhs.length rhs.length - paramPrefixLen lhs rhs)

/-- The middle region of `lhs` left after removing the common prefix and
suffix shared with `rhs`. -/
def paramMid (lhs rhs : List (Param α)) : List (Param α) :=
  (lhs.drop (paramPrefixLen lhs rhs)).take
    (lhs.length - paramSuffixLen lhs rhs - paramPrefixLen lhs rhs)

/-- Modelled from the spec: the middle-region rule of
`ParamPackMatcher::match` (spec section 4.2 step 4). A pack expansion on
exactly one side absorbs the whole opposite middle into one aggregate; two
pack expansions pair directly, their trimmed remainders having to be
simultaneously exhausted; with no pack expansion the trimmed remainders
must both already be empty. -/
def middleMatch (lhsMid rhsMid : List (Param α)) (i : Nat) :
    Option (List (MatchedPair α)) :=
  match hasPack lhsMid, hasPack rhsMid with
  | false, false =>
    if lhsMid.isEmpty && rhsMid.isEmpty then some [] else none
  | true, false =>
    match lhsMid with
    | [p] => some [⟨Side.scalar p.ty, Side.aggregate (paramTys rhsMid), i⟩]
    | _ => none
  | false, true =>
    match rhsMid with
    | [p] => some [⟨Side.aggregate (paramTys lhsMid), Side.scalar p.ty, i⟩]
    | _ => none
  | true, true =>
    match lhsMid, rhsMid with
    | [p], [q] => some [⟨Side.scalar p.ty, Side.scalar q.ty, i⟩]
    | _, _ => none

/-- Modelled from the spec: `ParamPackMatcher::match` (spec section 4.2),
whose implementation `PackExpansionMatcher.cpp` is not in the excerpt.
Prefix/suffix/middle decomposition: pair a common scalar prefix, a common
scalar suffix, and resolve the middle by pack absorption; emitted pairs
follow left-to-right positional order with `idx` the position in the
original left list. -/
def paramMatch (lhs rhs : List (Param α)) : Option (List (MatchedPair α)) :=
  (middleMatch (paramMid lhs rhs) (paramMid rhs lhs) (paramPrefixLen lhs rhs)).map
    (fun mid =>
      scalarPairs (lhs.take (paramPrefixLen lhs rhs))
          (rhs.take (paramPrefixLen lhs rhs)) 0
        ++ mid
        ++ scalarPairs (lhs.drop (lhs.length - paramSuffixLen lhs rhs))
            (rhs.drop (rhs.length - paramSuffixLen lhs rhs))
            (lhs.length - paramSuffixLen lhs rhs))

/-- Positional scalar pairs of two tuple-element lists, `i` the position of
the first pair; the expected output of a pack-free tuple match. -/
def tupleScalarPairs : List (TupleTypeElt α) → List (TupleTypeElt α) → Nat →
    List (MatchedPair α)
  | l :: ls, r :: rs, i =>
    ⟨Side.scalar l.ty, Side.scalar r.ty, i⟩ :: tupleScalarPairs ls rs (i + 1)
  | _, _, _ => []

/-- Positional label compatibility of two tuple-element lists. -/
def tupleLabelsOk (lhs rhs : List (TupleTypeElt α)) : Bool :=
  (List.zip lhs rhs).all (fun p => labelsOk p.1.label p.2.label)

/-- All left-side payloads of a pair list, in emission order. -/
def pairsLhsElems : List (MatchedPair α) → List α
  | [] => []
  | p :: ps => p.lhs.elems ++ pairsLhsElems ps

/-- All right-side payloads of a pair list, in emission order. -/
def pairsRhsElems : List (MatchedPair α) → List α
  | [] => []
  | p :: ps => p.rhs.elems ++ pairsRhsElems ps

end PackMatcher

namespace TestSpec

/-!
Embedding of `swift::test::Argument` and `Arguments` from
`include/swift/SILOptimizer/Utils/ParseTestSpecification.h`. The
`TaggedUnion` payload together with the `kind` discriminant is one closed
sum; SIL pointers and values are opaque handles, modelled as `Nat` tokens.
`cast<ConcreteArgument>` checks `classof` (kind equality) and is a fatal
assertion on mismatch; fatal assertions are modelled as `none`.
-/

/-- `Argument::Kind` from `ParseTestSpecification.h`. -/
inductive Kind where
  | string
  | bool
  | uint
  | value
  | operand
  | instruction
  | block
  | function
  deriving DecidableEq, Repr

/-- `Argument`: the tagged union of the eight payload cases. `StringRef`
payloads are strings, `unsigned long long` a natural number, and the SIL
entities (`SILValue`, `Operand *`, `SILInstruction *`, `SILBasicBlock *`,
`SILFunction *`) opaque handles. -/
inductive Argument where
  | string (s : String)
  | bool (b : Bool)
  | uint (n : Nat)
  | value (v : Nat)
  | operand (o : Nat)
  | instruction (i : Nat)
  | block (b : Nat)
  | function (f : Nat)
  deriving DecidableEq, Repr

/-- `Argument::getKind`. -/
def Argument.getKind : Argument → Kind
  | .string _ => .string
  | .bool _ => .bool
  | .uint _ => .uint
  | .value _ => .value
  | .operand _ => .operand
  | .instruction _ => .instruction
  | .block _ => .block
  | .function _ => .function

/-- `Arguments`: the argument storage with its cursor of not-yet-taken
arguments. -/
structure Arguments where
  storage : List Argument
  untakenIndex : Nat
  deriving DecidableEq, Repr

/-- The state after one argument has been taken. -/
def Arguments.advance (a : Arguments) : Arguments :=
  ⟨a.storage, a.untakenIndex + 1⟩

/-- `Arguments::takeArgument`: `storage[untakenIndex++]`. Reading past the
end of the storage is out of bounds, modelled as `none`. -/
def Arguments.takeArgument (a : Arguments) : Option (Argument × Arguments) :=
  match a.storage[a.untakenIndex]? with
  | some arg => some (arg, a.advance)
  | none => none

/-- `Arguments::takeString`: `cast<StringArgument>(takeArgument()).getValue()`;
the `cast` asserts `classof`, i.e. that the kind is `String`. -/
def Arguments.takeString (a : Arguments) : Option (String × Arguments) :=
  match a.takeArgument with
  | some (.string s, a') => some (s, a')
  | _ => none

/-- `Arguments::takeBool`. -/
def Arguments.takeBool (a : Arguments) : Option (Bool × Arguments) :=
  match a.takeArgument with
  | some (.bool b, a') => some (b, a')
  | _ => none

/-- `Arguments::takeUInt`. -/
def Arguments.takeUInt (a : Arguments) : Option (Nat × Arguments) :=
  match a.takeArgument with
  | some (.uint n, a') => some (n, a')
  | _ => none

/-- `Arguments::takeValue`. -/
def Arguments.takeValue (a : Arguments) : Option (Nat × Arguments) :=
  match a.takeArgument with
  | some (.value v, a') => some (v, a')
  | _ => none

/-- `Arguments::takeOperand`. -/
def Arguments.takeOperand (a : Arguments) : Option (Nat × Arguments) :=
  match a.takeArgument with
  | some (.operand o, a') => some (o, a')
  | _ => none

/-- `Arguments::takeInstruction`. -/
def Arguments.takeInstruction (a : Arguments) : Option (Nat × Arguments) :=
  match a.takeArgument with
  | some (.instruction i, a') => some (i, a')
  | _ => none

/-- `Arguments::takeBlock`. -/
def Arguments.takeBlock (a : Arguments) : Option (Nat × Arguments) :=
  match a.takeArgument with
  | some (.block b, a') => some (b, a')
  | _ => none

/-- `Arguments::takeFunction`. -/
def Arguments.takeFunction (a : Arguments) : Option (Nat × Arguments) :=
  match a.takeArgument with
  | some (.function f, a') => some (f, a')
  | _ => none

end TestSpec

namespace TBD

/-!
Embedding of `validateSymbols` from `lib/FrontendTool/TBD.cpp`. An IR
module is its value symbol table (entries keyed by name, each either a
`GlobalValue` with its linkage/visibility/definition flags or some other
value), the target flag consulted by `isSymbolIgnored`, and the data
layout's global prefix applied by `llvm::Mangler::getNameWithPrefix`.
The `llvm::StringSet` of TBD symbols is modelled as a duplicate-free list
(`dedup`), with `erase` removing a present key. Diagnostics only accompany
the boolean result, so only the returned `error` flag is modelled.
-/

/-- One entry of the IR module's value symbol table: its (unmangled) key
and the properties of its value that `validateSymbols` inspects. -/
structure SymTabEntry where
  name : String
  isGlobalValue : Bool
  hasExternalLinkage : Bool
  hasCommonLinkage : Bool
  hasHiddenVisibility : Bool
  isDeclaration : Bool
  deriving DecidableEq, Repr

/-- The parts of `llvm::Module` that `validateSymbols` reads. -/
structure IRModule where
  targetIsWindows : Bool
  globalPrefix : String
  valueSymbolTable : List SymTabEntry
  deriving DecidableEq, Repr

/-- `isSymbolIgnored` from `TBD.cpp`: on Windows targets the absence of
`__ImageBase` from the TBD file is ignored. -/
def isSymbolIgnored (name : String) (m : IRModule) : Bool :=
  m.targetIsWindows && name == "__ImageBase"

/-- `llvm::Mangler::getNameWithPrefix`: prepends the data layout's global
prefix to an IRGen name. -/
def getNameWithPrefix (m : IRModule) (name : String) : String :=
  m.globalPrefix ++ name

/-- The `externallyVisible` condition of `validateSymbols`: external or
common linkage and not hidden visibility. -/
def externallyVisible (g : SymTabEntry) : Bool :=
  (g.hasExternalLinkage || g.hasCommonLinkage) && !g.hasHiddenVisibility

/-- The body of `validateSymbols`' loop over the value symbol table. The
state is the remaining TBD symbol set and the accumulated `irNotTBD` list:
ignored symbols are skipped; an externally visible defined global erases
its mangled name from the set, or joins `irNotTBD` when absent; any other
entry leaves the state unchanged. -/
def validateStep (m : IRModule) (st : List String × List String)
    (g : SymTabEntry) : List String × List String :=
  if isSymbolIgnored g.name m then st
  else
    let name := getNameWithPrefix m g.name
    if g.isGlobalValue then
      if !g.isDeclaration && externallyVisible g then
        if name ∈ st.1 then (st.1.erase name, st.2)
        else (st.1, st.2 ++ [g.name])
      else st
    else st

/-- `validateSymbols` from `TBD.cpp`: true (error) when some IR global is
missing from the TBD list, or — only with `diagnoseExtraSymbolsInTBD` —
when TBD symbols remain unmatched by any IR global. Sorting of the
diagnostic lists does not affect the result and is omitted. -/
def validateSymbols (symbols : List String) (m : IRModule)
    (diagnoseExtraSymbolsInTBD : Bool) : Bool :=
  let st := m.valueSymbolTable.foldl (validateStep m) (symbols.dedup, [])
  !st.2.isEmpty || (diagnoseExtraSymbolsInTBD && !st.1.isEmpty)

/-- The condition under which `validateSymbols` requires an entry's mangled
name to be listed in the TBD file: not ignored, a `GlobalValue`, defined,
and externally visible. -/
def qualifies (m : IRModule) (g : SymTabEntry) : Bool :=
  !isSymbolIgnored g.name m && g.isGlobalValue
    && (!g.isDeclaration && externallyVisible g)

end TBD

namespace TestSpec

/-- C9: every typed take accessor of `Arguments` (takeString, takeBool,
takeUInt, takeValue, takeOperand, takeInstruction, takeBlock, takeFunction)
fails with a fatal assertion (modelled as `none`) when the next untaken
argument's kind differs from the accessor's kind, and returns exactly the
stored value (advancing the cursor) when the kinds agree. -/
theorem take_accessors_kind_checked (a : Arguments) (arg : Argument)
    (h : a.storage[a.untakenIndex]? = some arg) :
    ((∀ s, arg = .string s → a.takeString = some (s, a.advance))
      ∧ (arg.getKind ≠ .string → a.takeString = none))
    ∧ ((∀ b, arg = .bool b → a.takeBool = some (b, a.advance))
      ∧ (arg.getKind ≠ .bool → a.takeBool = none))
    ∧ ((∀ n, arg = .uint n → a.takeUInt = some (n, a.advance))
      ∧ (arg.getKind ≠ .uint → a.takeUInt = none))
    ∧ ((∀ v, arg = .value v → a.takeValue = some (v, a.advance))
      ∧ (arg.getKind ≠ .value → a.takeValue = none))
    ∧ ((∀ o, arg = .operand o → a.takeOperand = some (o, a.advance))
      ∧ (arg.getKind ≠ .operand → a.takeOperand = none))
    ∧ ((∀ i, arg = .instruction i → a.takeInstruction = some (i, a.advance))
      ∧ (arg.getKind ≠ .instruction → a.takeInstruction = none))
    ∧ ((∀ b, arg = .block b → a.takeBlock = some (b, a.advance))
      ∧ (arg.getKind ≠ .block → a.takeBlock = none))
    ∧ ((∀ f, arg = .function f → a.takeFunction = some (f, a.advance))
      ∧ (arg.getKind ≠ .function → a.takeFunction = none)) := by
  cases arg <;>
    simp [Arguments.takeString, Arguments.takeBool, Arguments.takeUInt,
      Arguments.takeValue, Arguments.takeOperand, Arguments.takeInstruction,
      Arguments.takeBlock, Arguments.takeFunction, Arguments.takeArgument, h,
      Argument.getKind]

/-- Closed instance of C9: taking a string argument when the next untaken
argument is a string returns the stored string, and taking a string when
the next untaken argument is a bool fails. -/
theorem take_accessors_kind_checked_witness :
    (Arguments.mk [Argument.string "s"] 0).takeString
        = some ("s", Arguments.mk [Argument.string "s"] 1)
      ∧ (Arguments.mk [Argument.bool true] 0).takeString = none := by
  constructor
  · exact (take_accessors_kind_checked ⟨[Argument.string "s"], 0⟩
      (.string "s") rfl).1.1 "s" rfl
  · exact (take_accessors_kind_checked ⟨[Argument.bool true], 0⟩
      (.bool true) rfl).1.2 (by decide)

end TestSpec

namespace TBD

theorem validateStep_eq (m : IRModule) (st : List String × List String)
    (g : SymTabEntry) :
    validateStep m st g =
      if qualifies m g then
        if getNameWithPrefix m g.name ∈ st.1
        then (st.1.erase (getNameWithPrefix m g.name), st.2)
        else (st.1, st.2 ++ [g.name])
      else st := by
  unfold validateStep qualifies
  by_cases h1 : isSymbolIgnored g.name m <;>
    by_cases h2 : g.isGlobalValue <;>
      by_cases h3 : (!g.isDeclaration && externallyVisible g) = true <;>
        simp [h1, h2, h3]

theorem validateStep_fst_subset (m : IRModule) (st : List String × List String)
    (g : SymTabEntry) : (validateStep m st g).1 ⊆ st.1 := by
  rw [validateStep_eq]
  split
  · split
    · intro a ha; exact List.erase_subset _ _ ha
    · intro a ha; exact ha
  · intro a ha; exact ha

theorem validateStep_snd_cases (m : IRModule) (st : List String × List String)
    (g : SymTabEntry) :
    (validateStep m st g).2 = st.2 ∨ (validateStep m st g).2 = st.2 ++ [g.name] := by
  rw [validateStep_eq]
  split
  · split
    · exact Or.inl rfl
    · exact Or.inr rfl
  · exact Or.inl rfl

theorem foldl_validateStep_snd_append (m : IRModule) :
    ∀ (gs : List SymTabEntry) (st : List String × List String),
      ∃ t, (gs.foldl (validateStep m) st).2 = st.2 ++ t := by
  intro gs
  induction gs with
  | nil => exact fun st => ⟨[], by simp⟩
  | cons g gs ih =>
    intro st
    obtain ⟨t, ht⟩ := ih (validateStep m st g)
    rcases validateStep_snd_cases m st g with h | h
    · exact ⟨t, by rw [List.foldl_cons, ht, h]⟩
    · exact ⟨g.name :: t, by rw [List.foldl_cons, ht, h]; simp⟩

theorem foldl_validateStep_snd_missing (m : IRModule) :
    ∀ (gs : List SymTabEntry) (st : List String × List String) (g : SymTabEntry),
      g ∈ gs → qualifies m g = true → getNameWithPrefix m g.name ∉ st.1 →
      (gs.foldl (validateStep m) st).2 ≠ st.2 := by
  intro gs
  induction gs with
  | nil => intro st g h; simp at h
  | cons g' gs ih =>
    intro st g hmem hq hnot
    rcases List.mem_cons.mp hmem with rfl | hmem'
    · have hstep : validateStep m st g = (st.1, st.2 ++ [g.name]) := by
        rw [validateStep_eq, if_pos hq, if_neg hnot]
      obtain ⟨t, ht⟩ := foldl_validateStep_snd_append m gs (validateStep m st g)
      rw [List.foldl_cons, ht, hstep]
      intro hcontra
      have := congrArg List.length hcontra
      simp at this
    · have hnot' : getNameWithPrefix m g.name ∉ (validateStep m st g').1 :=
        fun hx => hnot (validateStep_fst_subset m st g' hx)
      have htail := ih (validateStep m st g') g hmem' hq hnot'
      rw [List.foldl_cons]
      rcases validateStep_snd_cases m st g' with h | h
      · rw [← h]; exact htail
      · obtain ⟨t, ht⟩ := foldl_validateStep_snd_append m gs (validateStep m st g')
        rw [ht, h]
        intro hcontra
        have := congrArg List.length hcontra
        simp at this

theorem foldl_validateStep_snd_complete (m : IRModule) :
    ∀ (gs : List SymTabEntry) (st : List String × List String),
      (gs.map (fun g => getNameWithPrefix m g.name)).Nodup →
      st.1.Nodup →
      (∀ g ∈ gs, qualifies m g = true → getNameWithPrefix m g.name ∈ st.1) →
      (gs.foldl (validateStep m) st).2 = st.2 := by
  intro gs
  induction gs with
  | nil => intro st _ _ _; rfl
  | cons g gs ih =>
    intro st hnd hnd1 hall
    have hndtail := (List.nodup_cons.mp hnd).2
    have hhead := (List.nodup_cons.mp hnd).1
    by_cases hq : qualifies m g = true
    · have hmem := hall g (by simp) hq
      have hstep : validateStep m st g =
          (st.1.erase (getNameWithPrefix m g.name), st.2) := by
        rw [validateStep_eq, if_pos hq, if_pos hmem]
      rw [List.foldl_cons, hstep]
      apply ih _ hndtail (hnd1.erase _)
      intro g' hg' hq'
      have hne : getNameWithPrefix m g'.name ≠ getNameWithPrefix m g.name := by
        intro he
        have hx : getNameWithPrefix m g'.name ∈
            List.map (fun g => getNameWithPrefix m g.name) gs :=
          List.mem_map_of_mem _ hg'
        rw [he] at hx
        exact hhead hx
      exact (hnd1.mem_erase_iff).mpr ⟨hne, hall g' (by simp [hg']) hq'⟩
    · have hq' : qualifies m g = false := by
        cases hqq : qualifies m g
        · rfl
        · exact absurd hqq hq
      have hstep : validateStep m st g = st := by
        rw [validateStep_eq, if_neg]
        simp [hq']
      rw [List.foldl_cons, hstep]
      exact ih st hndtail hnd1 (fun g' hg' => hall g' (by simp [hg']))

theorem mem_foldl_validateStep_fst (m : IRModule) :
    ∀ (gs : List SymTabEntry) (st : List String × List String), st.1.Nodup →
      ∀ s, (s ∈ (gs.foldl (validateStep m) st).1 ↔
        s ∈ st.1 ∧ ∀ g ∈ gs, qualifies m g = true → getNameWithPrefix m g.name ≠ s) := by
  intro gs
  induction gs with
  | nil => intro st _ s; simp
  | cons g gs ih =>
    intro st hnd1 s
    by_cases hq : qualifies m g = true
    · by_cases hmem : getNameWithPrefix m g.name ∈ st.1
      · have hstep : validateStep m st g =
            (st.1.erase (getNameWithPrefix m g.name), st.2) := by
          rw [validateStep_eq, if_pos hq, if_pos hmem]
        rw [List.foldl_cons, hstep]
        rw [ih _ (hnd1.erase _) s]
        simp only [hnd1.mem_erase_iff, List.forall_mem_cons, hq, true_implies]
        constructor
        · rintro ⟨⟨hne, hs⟩, htail⟩
          exact ⟨hs, fun he => hne he.symm, htail⟩
        · rintro ⟨hs, hne, htail⟩
          exact ⟨⟨fun he => hne he.symm, hs⟩, htail⟩
      · have hstep : validateStep m st g = (st.1, st.2 ++ [g.name]) := by
          rw [validateStep_eq, if_pos hq, if_neg hmem]
        rw [List.foldl_cons, hstep]
        rw [ih (st.1, st.2 ++ [g.name]) hnd1 s]
        simp only [List.forall_mem_cons, hq, true_implies]
        constructor
        · rintro ⟨hs, htail⟩
          exact ⟨hs, fun he => hmem (he ▸ hs), htail⟩
        · rintro ⟨hs, _, htail⟩
          exact ⟨hs, htail⟩
    · have hq' : qualifies m g = false := by
        cases hqq : qualifies m g
        · rfl
        · exact absurd hqq hq
      have hstep : validateStep m st g = st := by
        rw [validateStep_eq, if_neg]
        simp [hq']
      rw [List.foldl_cons, hstep, ih st hnd1 s]
      simp [List.forall_mem_cons, hq']

theorem append_left_injective (p : String) :
    Function.Injective (fun s => p ++ s) := by
  intro a b h
  have hd := congrArg String.data h
  simp only [String.data_append] at hd
  apply String.ext
  exact List.append_cancel_left hd

/-- C10: with `diagnoseExtraSymbolsInTBD = false`, `validateSymbols`
returns true exactly when some non-ignored, externally visible, defined
global value of the IR module has a mangled name absent from the TBD
symbol list; with `diagnoseExtraSymbolsInTBD = true` it additionally
returns true when some TBD symbol matches no such global, so extra TBD
symbols contribute to the error result only in that mode. The value symbol
table keys are assumed distinct, as a symbol table's keys are. -/
theorem validateSymbols_spec (symbols : List String) (m : IRModule)
    (hnd : (m.valueSymbolTable.map (fun g => g.name)).Nodup) :
    (validateSymbols symbols m false = true ↔
      ∃ g ∈ m.valueSymbolTable, qualifies m g = true ∧
        getNameWithPrefix m g.name ∉ symbols)
    ∧ (validateSymbols symbols m true = true ↔
      ((∃ g ∈ m.valueSymbolTable, qualifies m g = true ∧
          getNameWithPrefix m g.name ∉ symbols)
        ∨ ∃ s ∈ symbols, ∀ g ∈ m.valueSymbolTable,
            qualifies m g = true → getNameWithPrefix m g.name ≠ s)) := by
  have hndm : (m.valueSymbolTable.map (fun g => getNameWithPrefix m g.name)).Nodup := by
    have heq : m.valueSymbolTable.map (fun g => getNameWithPrefix m g.name)
        = (m.valueSymbolTable.map (fun g => g.name)).map
            (fun s => m.globalPrefix ++ s) := by
      rw [List.map_map]
      rfl
    rw [heq]
    exact hnd.map (append_left_injective m.globalPrefix)
  have hsnd : ((m.valueSymbolTable.foldl (validateStep m) (symbols.dedup, [])).2 = []
      ↔ ∀ g ∈ m.valueSymbolTable, qualifies m g = true →
          getNameWithPrefix m g.name ∈ symbols.dedup) := by
    constructor
    · intro h g hg hq
      by_contra hnot
      exact foldl_validateStep_snd_missing m m.valueSymbolTable
        (symbols.dedup, []) g hg hq hnot h
    · intro h
      exact foldl_validateStep_snd_complete m m.valueSymbolTable
        (symbols.dedup, []) hndm (List.nodup_dedup symbols) h
  have hfst : ∀ s, (s ∈ (m.valueSymbolTable.foldl (validateStep m) (symbols.dedup, [])).1
      ↔ s ∈ symbols ∧ ∀ g ∈ m.valueSymbolTable,
          qualifies m g = true → getNameWithPrefix m g.name ≠ s) := by
    intro s
    rw [mem_foldl_validateStep_fst m m.valueSymbolTable (symbols.dedup, [])
      (List.nodup_dedup symbols) s]
    rw [show ((symbols.dedup, ([] : List String)).1 = symbols.dedup) from rfl,
      List.mem_dedup]
  constructor
  · rw [show (validateSymbols symbols m false
        = !(m.valueSymbolTable.foldl (validateStep m) (symbols.dedup, [])).2.isEmpty)
        from by simp [validateSymbols]]
    rw [Bool.not_eq_true', ← Bool.not_eq_true]
    rw [List.isEmpty_iff]
    rw [show ((¬(m.valueSymbolTable.foldl (validateStep m) (symbols.dedup, [])).2 = [])
        ↔ ¬∀ g ∈ m.valueSymbolTable, qualifies m g = true →
            getNameWithPrefix m g.name ∈ symbols.dedup) from not_congr hsnd]
    push_neg
    simp only [List.mem_dedup]
  · rw [show (validateSymbols symbols m true
        = (!(m.valueSymbolTable.foldl (validateStep m) (symbols.dedup, [])).2.isEmpty
          || !(m.valueSymbolTable.foldl (validateStep m) (symbols.dedup, [])).1.isEmpty))
        from by simp [validateSymbols]]
    rw [Bool.or_eq_true, Bool.not_eq_true', Bool.not_eq_true', ← Bool.not_eq_true,
      ← Bool.not_eq_true, List.isEmpty_iff, List.isEmpty_iff]
    constructor
    · rintro (h | h)
      · left
        have := (not_congr hsnd).mp h
        push_neg at this
        simpa only [List.mem_dedup] using this
      · right
        rw [List.eq_nil_iff_forall_not_mem] at h
        push_neg at h
        obtain ⟨s, hs⟩ := h
        exact ⟨s, ((hfst s).mp hs).1, ((hfst s).mp hs).2⟩
    · rintro (h | h)
      · left
        intro hcontra
        obtain ⟨g, hg, hq, hnot⟩ := h
        exact hnot (List.mem_dedup.mp (hsnd.mp hcontra g hg hq))
      · right
        obtain ⟨s, hs, hall⟩ := h
        intro hcontra
        rw [List.eq_nil_iff_forall_not_mem] at hcontra
        exact hcontra s ((hfst s).mpr ⟨hs, hall⟩)

/-- Closed instance of C10: an IR module with one defined, externally
visible global absent from an empty TBD list makes validation fail even
without diagnosing extra TBD symbols. -/
theorem validateSymbols_spec_witness :
    validateSymbols [] ⟨false, "_", [⟨"a", true, true, false, false, false⟩]⟩ false
      = true := by
  refine ((validateSymbols_spec []
    ⟨false, "_", [⟨"a", true, true, false, false, false⟩]⟩ (by simp)).1).mpr ?_
  exact ⟨⟨"a", true, true, false, false, false⟩, by simp, by decide, by simp⟩

end TBD

namespace PackMatcher

/-- C1: in `TuplePackMatcher`, when exactly one of the two current elements
is a pack expansion, that element absorbs the other side's run of elements
up to (not including) the next element with a non-empty label (or the end),
emitting exactly one `MatchedPair` whose aggregate side lists the absorbed
elements; in particular `[A, Pack, B(label x)]` against
`[A, C, D, B(label x)]` matches as the three pairs (A,A), (Pack,[C,D]),
(B,B), in that order. -/
theorem tuple_single_pack_absorption :
    (∀ (i : Nat) (l r : TupleTypeElt Nat) (ls rs : List (TupleTypeElt Nat)),
        l.isPackExpansion = true → r.isPackExpansion = false →
        tupleMatchAux i (l :: ls) (r :: rs) =
          (tupleMatchAux (i + 1) ls ((r :: rs).dropWhile (fun e => e.label == ""))).map
            (fun ps => ⟨Side.scalar l.ty,
              Side.aggregate (tupleTys ((r :: rs).takeWhile (fun e => e.label == ""))),
              i⟩ :: ps))
    ∧ (∀ (i : Nat) (l r : TupleTypeElt Nat) (ls rs : List (TupleTypeElt Nat)),
        l.isPackExpansion = false → r.isPackExpansion = true →
        tupleMatchAux i (l :: ls) (r :: rs) =
          (tupleMatchAux (i + ((l :: ls).takeWhile (fun e => e.label == "")).length)
              ((l :: ls).dropWhile (fun e => e.label == "")) rs).map
            (fun ps =>
              ⟨Side.aggregate (tupleTys ((l :: ls).takeWhile (fun e => e.label == ""))),
                Side.scalar r.ty, i⟩ :: ps))
    ∧ tupleMatch
        [⟨0, "", false⟩, ⟨1, "", true⟩, ⟨2, "x", false⟩]
        [⟨10, "", false⟩, ⟨11, "", false⟩, ⟨12, "", false⟩, ⟨13, "x", false⟩]
      = some [⟨Side.scalar 0, Side.scalar 10, 0⟩,
              ⟨Side.scalar 1, Side.aggregate [11, 12], 1⟩,
              ⟨Side.scalar 2, Side.scalar 13, 2⟩] := by
  refine ⟨?_, ?_, ?_⟩
  · intro i l r ls rs hl hr
    rw [tupleMatchAux]
    simp [hl, hr, absorbRun, absorbRest]
  · intro i l r ls rs hl hr
    rw [tupleMatchAux]
    simp [hl, hr, absorbRun, absorbRest]
  · simp [tupleMatch, tupleMatchAux, absorbRun, absorbRest, tupleTys, labelsOk]

/-- Closed instance of C1's absorption equations: a pack expansion facing a
scalar absorbs the unlabeled run, on both sides. -/
theorem tuple_single_pack_absorption_witness :
    tupleMatchAux 0 [⟨(1 : Nat), "", true⟩] [⟨11, "", false⟩] =
      (tupleMatchAux 1 [] (([⟨11, "", false⟩] : List (TupleTypeElt Nat)).dropWhile
          (fun e => e.label == ""))).map
        (fun ps => ⟨Side.scalar 1,
          Side.aggregate (tupleTys (([⟨11, "", false⟩] : List (TupleTypeElt Nat)).takeWhile
            (fun e => e.label == ""))), 0⟩ :: ps) :=
  tuple_single_pack_absorption.1 0 ⟨1, "", true⟩ ⟨11, "", false⟩ [] [] rfl rfl

/-- C5: in `TuplePackMatcher`, two scalar elements both carrying non-empty
labels must have exactly equal labels; differing labels make the match
fail, in particular `[A(label x)]` against `[A(label y)]`. -/
theorem tuple_label_mismatch_fails :
    (∀ (i : Nat) (l r : TupleTypeElt Nat) (ls rs : List (TupleTypeElt Nat)),
        l.isPackExpansion = false → r.isPackExpansion = false →
        l.label ≠ "" → r.label ≠ "" → l.label ≠ r.label →
        tupleMatchAux i (l :: ls) (r :: rs) = none)
    ∧ tupleMatch [⟨0, "x", false⟩] [⟨1, "y", false⟩] = none := by
  constructor
  · intro i l r ls rs hl hr hl1 hr1 hne
    rw [tupleMatchAux]
    simp [hl, hr, labelsOk, hl1, hr1, hne]
  · simp [tupleMatch, tupleMatchAux, labelsOk]

/-- Closed instance of C5: a label mismatch between two labeled scalars
fails. -/
theorem tuple_label_mismatch_fails_witness :
    tupleMatchAux 0 [⟨(0 : Nat), "x", false⟩] [⟨1, "y", false⟩] = none :=
  tuple_label_mismatch_fails.1 0 ⟨0, "x", false⟩ ⟨1, "y", false⟩ [] []
    rfl rfl (by decide) (by decide) (by decide)

/-- C6: in `ParamPackMatcher`, when the middles left after prefix/suffix
trimming contain no pack expansion and have different lengths, the match
fails; in particular two pack-free lists of lengths 2 and 3. -/
theorem param_arity_mismatch_fails :
    (∀ (lhs rhs : List (Param Nat)),
        hasPack (paramMid lhs rhs) = false → hasPack (paramMid rhs lhs) = false →
        (paramMid lhs rhs).length ≠ (paramMid rhs lhs).length →
        paramMatch lhs rhs = none)
    ∧ paramMatch [⟨0, false⟩, ⟨1, false⟩]
        [⟨10, false⟩, ⟨11, false⟩, ⟨12, false⟩] = none := by
  constructor
  · intro lhs rhs h1 h2 hne
    have hno : ((paramMid lhs rhs).isEmpty && (paramMid rhs lhs).isEmpty) = false := by
      cases hl : (paramMid lhs rhs).isEmpty
      · simp
      · cases hr : (paramMid rhs lhs).isEmpty
        · simp
        · rw [List.isEmpty_iff] at hl hr
          rw [hl, hr] at hne
          exact absurd rfl hne
    simp [paramMatch, middleMatch, h1, h2, hno]
  · decide

/-- Closed instance of C6: lengths 2 and 3 without packs fail. -/
theorem param_arity_mismatch_fails_witness :
    paramMatch [⟨(0 : Nat), false⟩, ⟨1, false⟩]
      [⟨10, false⟩, ⟨11, false⟩, ⟨12, false⟩] = none :=
  param_arity_mismatch_fails.1 _ _ (by decide) (by decide) (by decide)

theorem tupleMatchAux_no_pack {α : Type} (lhs : List (TupleTypeElt α)) :
    ∀ (rhs : List (TupleTypeElt α)) (i : Nat),
      (∀ e ∈ lhs, e.isPackExpansion = false) →
      (∀ e ∈ rhs, e.isPackExpansion = false) →
      tupleMatchAux i lhs rhs =
        if lhs.length = rhs.length ∧ tupleLabelsOk lhs rhs = true
        then some (tupleScalarPairs lhs rhs i) else none := by
  induction lhs with
  | nil =>
    intro rhs i _ hr
    cases rhs with
    | nil => simp [tupleMatchAux, tupleLabelsOk, tupleScalarPairs]
    | cons r rs =>
      rw [tupleMatchAux]
      simp [hr r (by simp)]
  | cons l ls ih =>
    intro rhs i hl hr
    cases rhs with
    | nil =>
      rw [tupleMatchAux]
      simp [hl l (by simp)]
    | cons r rs =>
      rw [tupleMatchAux]
      have hl0 := hl l (by simp)
      have hr0 := hr r (by simp)
      have hcons : tupleLabelsOk (l :: ls) (r :: rs)
          = (labelsOk l.label r.label && tupleLabelsOk ls rs) := by
        simp [tupleLabelsOk]
      simp only [hl0, hr0, Bool.false_eq_true, if_false]
      by_cases hlab : labelsOk l.label r.label = true
      · rw [if_pos hlab, ih rs (i + 1) (fun e he => hl e (by simp [he]))
          (fun e he => hr e (by simp [he]))]
        by_cases hc : ls.length = rs.length ∧ tupleLabelsOk ls rs = true
        · rw [if_pos hc, if_pos (⟨by simp [hc.1],
            by rw [hcons, hlab, hc.2]; rfl⟩)]
          simp [tupleScalarPairs]
        · rw [if_neg hc, if_neg (by
            intro hcontra
            apply hc
            refine ⟨by simpa using hcontra.1, ?_⟩
            have h2 := hcontra.2
            rw [hcons, hlab] at h2
            simpa using h2)]
          rfl
      · rw [if_neg hlab, if_neg (by
          intro hcontra
          have h2 := hcontra.2
          rw [hcons] at h2
          simp at h2
          exact hlab h2.1)]

theorem paramMatch_no_pack {α : Type} (lhs rhs : List (Param α))
    (hl : ∀ e ∈ lhs, e.isPackExpansion = false)
    (hr : ∀ e ∈ rhs, e.isPackExpansion = false) :
    paramMatch lhs rhs =
      if lhs.length = rhs.length then some (scalarPairs lhs rhs 0) else none := by
  have hfl : firstPackLen lhs = lhs.length := List.findIdx_eq_length.mpr hl
  have hfr : firstPackLen rhs = rhs.length := List.findIdx_eq_length.mpr hr
  have htl : trailingScalars lhs = lhs.length := by
    unfold trailingScalars
    rw [List.findIdx_eq_length.mpr (fun e he => hl e (List.mem_reverse.mp he)),
      List.length_reverse]
  have htr : trailingScalars rhs = rhs.length := by
    unfold trailingScalars
    rw [List.findIdx_eq_length.mpr (fun e he => hr e (List.mem_reverse.mp he)),
      List.length_reverse]
  have hpre : paramPrefixLen lhs rhs = min lhs.length rhs.length := by
    unfold paramPrefixLen
    rw [hfl, hfr]
  have hpre' : paramPrefixLen rhs lhs = min lhs.length rhs.length := by
    unfold paramPrefixLen
    rw [hfl, hfr, Nat.min_comm]
  have hsuf : paramSuffixLen lhs rhs = 0 := by
    unfold paramSuffixLen
    rw [htl, htr, hpre]
    omega
  have hsuf' : paramSuffixLen rhs lhs = 0 := by
    unfold paramSuffixLen
    rw [htl, htr, hpre']
    omega
  have hnp : ∀ (xs : List (Param α)), (∀ e ∈ xs, e.isPackExpansion = false) →
      hasPack xs = false := by
    intro xs hxs
    unfold hasPack
    rw [List.any_eq_false]
    intro x hx
    simp [hxs x hx]
  rcases Nat.le_total lhs.length rhs.length with hle | hle
  · have hminl : min lhs.length rhs.length = lhs.length := Nat.min_eq_left hle
    have hmidl : paramMid lhs rhs = [] := by
      unfold paramMid
      rw [hpre, hsuf, hminl]
      simp
    have hmidr : paramMid rhs lhs = rhs.drop lhs.length := by
      unfold paramMid
      rw [hpre', hsuf', hminl]
      exact List.take_of_length_le (by simp)
    by_cases heq : lhs.length = rhs.length
    · have hdrop : rhs.drop lhs.length = [] := by
        rw [heq]
        simp
      simp only [paramMatch, hpre, hsuf, hminl, hmidl, hmidr, hdrop, middleMatch,
        hasPack, List.any_nil]
      rw [if_pos heq]
      simp [heq]
      rw [← heq, List.take_length, List.drop_length]
      simp [scalarPairs]
    · have hdropne : (rhs.drop lhs.length).isEmpty = false := by
        cases hd : rhs.drop lhs.length
        · exfalso
          have := congrArg List.length hd
          simp at this
          omega
        · rfl
      simp only [paramMatch, hpre, hsuf, hminl, hmidl, hmidr, middleMatch]
      rw [hnp (rhs.drop lhs.length) (fun e he => hr e (List.mem_of_mem_drop he))]
      simp [hasPack, hdropne, heq]
  · have hminl : min lhs.length rhs.length = rhs.length := Nat.min_eq_right hle
    have hmidr : paramMid rhs lhs = [] := by
      unfold paramMid
      rw [hpre', hsuf', hminl]
      simp
    have hmidl : paramMid lhs rhs = lhs.drop rhs.length := by
      unfold paramMid
      rw [hpre, hsuf, hminl]
      exact List.take_of_length_le (by simp)
    by_cases heq : lhs.length = rhs.length
    · have hdrop : lhs.drop rhs.length = [] := by
        rw [← heq]
        simp
      simp only [paramMatch, hpre, hsuf, hminl, hmidl, hmidr, hdrop, middleMatch,
        hasPack, List.any_nil]
      rw [if_pos heq]
      simp [← heq]
      rw [heq, List.take_length, List.drop_length]
      simp [scalarPairs]
    · have hdropne : (lhs.drop rhs.length).isEmpty = false := by
        cases hd : lhs.drop rhs.length
        · exfalso
          have := congrArg List.length hd
          simp at this
          omega
        · rfl
      simp only [paramMatch, hpre, hsuf, hminl, hmidl, hmidr, middleMatch]
      rw [hnp (lhs.drop rhs.length) (fun e he => hl e (List.mem_of_mem_drop he))]
      simp [hasPack, hdropne, heq]

theorem tupleScalarPairs_length {α : Type} :
    ∀ (lhs rhs : List (TupleTypeElt α)) (i : Nat), lhs.length = rhs.length →
      (tupleScalarPairs lhs rhs i).length = lhs.length := by
  intro lhs
  induction lhs with
  | nil => intro rhs i _; simp [tupleScalarPairs]
  | cons l ls ih =>
    intro rhs i h
    cases rhs with
    | nil => simp at h
    | cons r rs =>
      simp only [tupleScalarPairs, List.length_cons]
      rw [ih rs (i + 1) (by simpa using h)]

theorem scalarPairs_length {α : Type} :
    ∀ (lhs rhs : List (Param α)) (i : Nat), lhs.length = rhs.length →
      (scalarPairs lhs rhs i).length = lhs.length := by
  intro lhs
  induction lhs with
  | nil => intro rhs i _; simp [scalarPairs]
  | cons l ls ih =>
    intro rhs i h
    cases rhs with
    | nil => simp at h
    | cons r rs =>
      simp only [scalarPairs, List.length_cons]
      rw [ih rs (i + 1) (by simpa using h)]

/-- C2: with no pack expansion on either side, both matchers succeed
exactly when the lengths agree and (for the tuple matcher) every pair of
corresponding labels is compatible, producing exactly `lhs.length` scalar
pairs, one per position. -/
theorem no_pack_identity :
    (∀ (lhs rhs : List (TupleTypeElt Nat)),
        (∀ e ∈ lhs, e.isPackExpansion = false) →
        (∀ e ∈ rhs, e.isPackExpansion = false) →
        tupleMatch lhs rhs =
          if lhs.length = rhs.length ∧ tupleLabelsOk lhs rhs = true
          then some (tupleScalarPairs lhs rhs 0) else none)
    ∧ (∀ (lhs rhs : List (Param Nat)),
        (∀ e ∈ lhs, e.isPackExpansion = false) →
        (∀ e ∈ rhs, e.isPackExpansion = false) →
        paramMatch lhs rhs =
          if lhs.length = rhs.length
          then some (scalarPairs lhs rhs 0) else none)
    ∧ (∀ (lhs rhs : List (TupleTypeElt Nat)) (i : Nat), lhs.length = rhs.length →
        (tupleScalarPairs lhs rhs i).length = lhs.length)
    ∧ (∀ (lhs rhs : List (Param Nat)) (i : Nat), lhs.length = rhs.length →
        (scalarPairs lhs rhs i).length = lhs.length) :=
  ⟨fun lhs rhs hl hr => tupleMatchAux_no_pack lhs rhs 0 hl hr,
    fun lhs rhs hl hr => paramMatch_no_pack lhs rhs hl hr,
    fun lhs rhs i h => tupleScalarPairs_length lhs rhs i h,
    fun lhs rhs i h => scalarPairs_length lhs rhs i h⟩

/-- Closed instance of C2: pack-free singleton lists with compatible labels
match as one scalar pair per side. -/
theorem no_pack_identity_witness :
    tupleMatch [⟨(0 : Nat), "", false⟩] [⟨5, "", false⟩]
        = some [⟨Side.scalar 0, Side.scalar 5, 0⟩]
      ∧ paramMatch [⟨(0 : Nat), false⟩] [⟨5, false⟩]
        = some [⟨Side.scalar 0, Side.scalar 5, 0⟩] := by
  constructor
  · have h := no_pack_identity.1 [⟨0, "", false⟩] [⟨5, "", false⟩]
      (by decide) (by decide)
    rw [if_pos (by constructor <;> decide)] at h
    rw [h]
    rfl
  · have h := no_pack_identity.2.1 [⟨0, false⟩] [⟨5, false⟩]
      (by decide) (by decide)
    rw [if_pos (by decide)] at h
    rw [h]
    rfl

theorem absorb_decomp {α : Type} (xs : List (TupleTypeElt α)) :
    absorbRun xs ++ absorbRest xs = xs := by
  simp [absorbRun, absorbRest]

theorem tupleTys_append {α : Type} (xs ys : List (TupleTypeElt α)) :
    tupleTys (xs ++ ys) = tupleTys xs ++ tupleTys ys := by
  simp [tupleTys]

theorem tupleMatchAux_cover {α : Type} (i : Nat)
    (lhs rhs : List (TupleTypeElt α)) :
    ∀ ps, tupleMatchAux i lhs rhs = some ps →
      pairsLhsElems ps = tupleTys lhs ∧ pairsRhsElems ps = tupleTys rhs := by
  induction i, lhs, rhs using tupleMatchAux.induct with
  | case1 i =>
    intro ps h
    rw [tupleMatchAux] at h
    simp only [Option.some.injEq] at h
    subst h
    simp [pairsLhsElems, pairsRhsElems, tupleTys]
  | case2 i l ls hpack ih =>
    intro ps h
    rw [tupleMatchAux, if_pos hpack] at h
    cases hrec : tupleMatchAux (i + 1) ls ([] : List (TupleTypeElt α)) with
    | none => rw [hrec] at h; simp at h
    | some ps' =>
      rw [hrec] at h
      simp only [Option.map_some', Option.some.injEq] at h
      subst h
      obtain ⟨h1, h2⟩ := ih ps' hrec
      exact ⟨by simp [pairsLhsElems, Side.elems, h1, tupleTys],
        by simpa [pairsRhsElems, Side.elems, tupleTys] using h2⟩
  | case3 i l ls hpack =>
    intro ps h
    rw [tupleMatchAux, if_neg hpack] at h
    simp at h
  | case4 i r rs hpack ih =>
    intro ps h
    rw [tupleMatchAux, if_pos hpack] at h
    cases hrec : tupleMatchAux i ([] : List (TupleTypeElt α)) rs with
    | none => rw [hrec] at h; simp at h
    | some ps' =>
      rw [hrec] at h
      simp only [Option.map_some', Option.some.injEq] at h
      subst h
      obtain ⟨h1, h2⟩ := ih ps' hrec
      exact ⟨by simpa [pairsLhsElems, Side.elems, tupleTys] using h1,
        by simp [pairsRhsElems, Side.elems, h2, tupleTys]⟩
  | case5 i r rs hpack =>
    intro ps h
    rw [tupleMatchAux, if_neg hpack] at h
    simp at h
  | case6 i l ls r rs hlp hrp ih =>
    intro ps h
    rw [tupleMatchAux, if_pos hlp, if_pos hrp] at h
    cases hrec : tupleMatchAux (i + 1) ls rs with
    | none => rw [hrec] at h; simp at h
    | some ps' =>
      rw [hrec] at h
      simp only [Option.map_some', Option.some.injEq] at h
      subst h
      obtain ⟨h1, h2⟩ := ih ps' hrec
      exact ⟨by simp [pairsLhsElems, Side.elems, h1, tupleTys],
        by simp [pairsRhsElems, Side.elems, h2, tupleTys]⟩
  | case7 i l ls r rs hlp hrp ih =>
    intro ps h
    rw [tupleMatchAux, if_pos hlp, if_neg hrp] at h
    cases hrec : tupleMatchAux (i + 1) ls (absorbRest (r :: rs)) with
    | none => rw [hrec] at h; simp at h
    | some ps' =>
      rw [hrec] at h
      simp only [Option.map_some', Option.some.injEq] at h
      subst h
      obtain ⟨h1, h2⟩ := ih ps' hrec
      refine ⟨by simp [pairsLhsElems, Side.elems, h1, tupleTys], ?_⟩
      show tupleTys (absorbRun (r :: rs)) ++ pairsRhsElems ps' = tupleTys (r :: rs)
      rw [h2, ← tupleTys_append, absorb_decomp]
  | case8 i l ls r rs hlp hrp ih =>
    intro ps h
    rw [tupleMatchAux, if_neg hlp, if_pos hrp] at h
    cases hrec : tupleMatchAux (i + (absorbRun (l :: ls)).length)
        (absorbRest (l :: ls)) rs with
    | none => rw [hrec] at h; simp at h
    | some ps' =>
      rw [hrec] at h
      simp only [Option.map_some', Option.some.injEq] at h
      subst h
      obtain ⟨h1, h2⟩ := ih ps' hrec
      refine ⟨?_, by simp [pairsRhsElems, Side.elems, h2, tupleTys]⟩
      show tupleTys (absorbRun (l :: ls)) ++ pairsLhsElems ps' = tupleTys (l :: ls)
      rw [h1, ← tupleTys_append, absorb_decomp]
  | case9 i l ls r rs hlp hrp hlab ih =>
    intro ps h
    rw [tupleMatchAux, if_neg hlp, if_neg hrp, if_pos hlab] at h
    cases hrec : tupleMatchAux (i + 1) ls rs with
    | none => rw [hrec] at h; simp at h
    | some ps' =>
      rw [hrec] at h
      simp only [Option.map_some', Option.some.injEq] at h
      subst h
      obtain ⟨h1, h2⟩ := ih ps' hrec
      exact ⟨by simp [pairsLhsElems, Side.elems, h1, tupleTys],
        by simp [pairsRhsElems, Side.elems, h2, tupleTys]⟩
  | case10 i l ls r rs hlp hrp hlab =>
    intro ps h
    rw [tupleMatchAux, if_neg hlp, if_neg hrp, if_neg hlab] at h
    simp at h

theorem paramTys_append {α : Type} (xs ys : List (Param α)) :
    paramTys (xs ++ ys) = paramTys xs ++ paramTys ys := by
  simp [paramTys]

theorem pairsLhsElems_append {α : Type} :
    ∀ (a b : List (MatchedPair α)),
      pairsLhsElems (a ++ b) = pairsLhsElems a ++ pairsLhsElems b := by
  intro a b
  induction a with
  | nil => simp [pairsLhsElems]
  | cons p ps ih => simp [pairsLhsElems, ih]

theorem pairsRhsElems_append {α : Type} :
    ∀ (a b : List (MatchedPair α)),
      pairsRhsElems (a ++ b) = pairsRhsElems a ++ pairsRhsElems b := by
  intro a b
  induction a with
  | nil => simp [pairsRhsElems]
  | cons p ps ih => simp [pairsRhsElems, ih]

theorem scalarPairs_cover {α : Type} :
    ∀ (ls rs : List (Param α)) (i : Nat), ls.length = rs.length →
      pairsLhsElems (scalarPairs ls rs i) = paramTys ls
        ∧ pairsRhsElems (scalarPairs ls rs i) = paramTys rs := by
  intro ls
  induction ls with
  | nil =>
    intro rs i h
    cases rs with
    | nil => simp [scalarPairs, pairsLhsElems, pairsRhsElems, paramTys]
    | cons r rs => simp at h
  | cons l ls ih =>
    intro rs i h
    cases rs with
    | nil => simp at h
    | cons r rs =>
      obtain ⟨h1, h2⟩ := ih rs (i + 1) (by simpa using h)
      simp [scalarPairs, pairsLhsElems, pairsRhsElems, Side.elems, h1, h2,
        paramTys]

theorem middleMatch_cover {α : Type} (lm rm : List (Param α)) (i : Nat)
    (mid : List (MatchedPair α)) (h : middleMatch lm rm i = some mid) :
    pairsLhsElems mid = paramTys lm ∧ pairsRhsElems mid = paramTys rm := by
  unfold middleMatch at h
  cases hl : hasPack lm <;> cases hr : hasPack rm <;> rw [hl, hr] at h
  · simp only [] at h
    split at h
    · rename_i hcond
      simp only [Option.some.injEq] at h
      subst h
      rw [Bool.and_eq_true, List.isEmpty_iff, List.isEmpty_iff] at hcond
      rw [hcond.1, hcond.2]
      simp [pairsLhsElems, pairsRhsElems, paramTys]
    · simp at h
  · match rm, h with
    | [q], h =>
      simp only [Option.some.injEq] at h
      subst h
      simp [pairsLhsElems, pairsRhsElems, Side.elems, paramTys]
  · match lm, h with
    | [p], h =>
      simp only [Option.some.injEq] at h
      subst h
      simp [pairsLhsElems, pairsRhsElems, Side.elems, paramTys]
  · match lm, rm, h with
    | [p], [q], h =>
      simp only [Option.some.injEq] at h
      subst h
      simp [pairsLhsElems, pairsRhsElems, Side.elems, paramTys]

theorem paramPrefixLen_comm {α : Type} (lhs rhs : List (Param α)) :
    paramPrefixLen rhs lhs = paramPrefixLen lhs rhs := by
  unfold paramPrefixLen
  exact Nat.min_comm _ _

theorem paramSuffixLen_comm {α : Type} (lhs rhs : List (Param α)) :
    paramSuffixLen rhs lhs = paramSuffixLen lhs rhs := by
  unfold paramSuffixLen
  rw [paramPrefixLen_comm, Nat.min_comm (trailingScalars rhs) _,
    Nat.min_comm rhs.length _]

theorem take_mid_drop {β : Type} (xs : List β) (p s : Nat)
    (hps : p + s ≤ xs.length) :
    xs.take p ++ ((xs.drop p).take (xs.length - s - p) ++ xs.drop (xs.length - s))
      = xs := by
  have h2 : (xs.drop p).drop (xs.length - s - p) = xs.drop (xs.length - s) := by
    rw [List.drop_drop]
    congr 1
    omega
  rw [← h2, List.take_append_drop, List.take_append_drop]

theorem paramPrefixLen_le {α : Type} (lhs rhs : List (Param α)) :
    paramPrefixLen lhs rhs ≤ min lhs.length rhs.length := by
  unfold paramPrefixLen firstPackLen
  have h1 := @List.findIdx_le_length _ (fun p => p.isPackExpansion) lhs
  have h2 := @List.findIdx_le_length _ (fun p => p.isPackExpansion) rhs
  omega

theorem paramSuffixLen_le {α : Type} (lhs rhs : List (Param α)) :
    paramSuffixLen lhs rhs ≤ min lhs.length rhs.length - paramPrefixLen lhs rhs :=
  Nat.min_le_right _ _

theorem paramMatch_cover {α : Type} (lhs rhs : List (Param α))
    (ps : List (MatchedPair α)) (h : paramMatch lhs rhs = some ps) :
    pairsLhsElems ps = paramTys lhs ∧ pairsRhsElems ps = paramTys rhs := by
  unfold paramMatch at h
  cases hmid : middleMatch (paramMid lhs rhs) (paramMid rhs lhs)
      (paramPrefixLen lhs rhs) with
  | none => rw [hmid] at h; simp at h
  | some mid =>
    rw [hmid] at h
    simp only [Option.map_some', Option.some.injEq] at h
    subst h
    obtain ⟨hm1, hm2⟩ := middleMatch_cover _ _ _ _ hmid
    have hminl : min lhs.length rhs.length ≤ lhs.length := Nat.min_le_left _ _
    have hminr : min lhs.length rhs.length ≤ rhs.length := Nat.min_le_right _ _
    have hple := paramPrefixLen_le lhs rhs
    have hsle := paramSuffixLen_le lhs rhs
    have hpsl : paramPrefixLen lhs rhs + paramSuffixLen lhs rhs ≤ lhs.length := by
      omega
    have hpsr : paramPrefixLen lhs rhs + paramSuffixLen lhs rhs ≤ rhs.length := by
      omega
    have hpreLen : (lhs.take (paramPrefixLen lhs rhs)).length
        = (rhs.take (paramPrefixLen lhs rhs)).length := by
      simp only [List.length_take]
      omega
    have hsufLen : (lhs.drop (lhs.length - paramSuffixLen lhs rhs)).length
        = (rhs.drop (rhs.length - paramSuffixLen lhs rhs)).length := by
      simp only [List.length_drop]
      omega
    obtain ⟨hp1, hp2⟩ := scalarPairs_cover (lhs.take (paramPrefixLen lhs rhs))
      (rhs.take (paramPrefixLen lhs rhs)) 0 hpreLen
    obtain ⟨hs1, hs2⟩ := scalarPairs_cover
      (lhs.drop (lhs.length - paramSuffixLen lhs rhs))
      (rhs.drop (rhs.length - paramSuffixLen lhs rhs))
      (lhs.length - paramSuffixLen lhs rhs) hsufLen
    constructor
    · rw [pairsLhsElems_append, pairsLhsElems_append, hp1, hm1, hs1]
      rw [← paramTys_append, ← paramTys_append]
      unfold paramMid
      rw [List.append_assoc, take_mid_drop lhs _ _ hpsl]
    · rw [pairsRhsElems_append, pairsRhsElems_append, hp2, hm2, hs2]
      rw [← paramTys_append, ← paramTys_append]
      unfold paramMid
      rw [paramPrefixLen_comm lhs rhs, paramSuffixLen_comm lhs rhs]
      rw [List.append_assoc, take_mid_drop rhs _ _ hpsr]

/-- C4: on every successful match (either matcher), the left sides of the
emitted pairs, flattened in order, are exactly the left input's payloads,
and likewise on the right: no element is dropped and none is used twice. -/
theorem match_exhaustive :
    (∀ (lhs rhs : List (TupleTypeElt Nat)) (ps : List (MatchedPair Nat)),
        tupleMatch lhs rhs = some ps →
        pairsLhsElems ps = tupleTys lhs ∧ pairsRhsElems ps = tupleTys rhs)
    ∧ (∀ (lhs rhs : List (Param Nat)) (ps : List (MatchedPair Nat)),
        paramMatch lhs rhs = some ps →
        pairsLhsElems ps = paramTys lhs ∧ pairsRhsElems ps = paramTys rhs) :=
  ⟨fun lhs rhs ps h => tupleMatchAux_cover 0 lhs rhs ps h,
    fun lhs rhs ps h => paramMatch_cover lhs rhs ps h⟩

/-- Closed instance of C4 on the absorption example: the single absorbed
pair list covers both inputs exactly. -/
theorem match_exhaustive_witness :
    pairsLhsElems [⟨Side.scalar (1 : Nat), Side.aggregate [11, 12], 0⟩]
        = tupleTys [⟨1, "", true⟩]
      ∧ pairsRhsElems [⟨Side.scalar (1 : Nat), Side.aggregate [11, 12], 0⟩]
        = tupleTys [⟨11, "", false⟩, ⟨12, "", false⟩] :=
  match_exhaustive.1 [⟨1, "", true⟩] [⟨11, "", false⟩, ⟨12, "", false⟩] _
    (by simp [tupleMatch, tupleMatchAux, absorbRun, absorbRest, tupleTys])

theorem elems_sublist_pairsLhs {α : Type} (p : MatchedPair α) :
    ∀ (ps : List (MatchedPair α)), p ∈ ps →
      p.lhs.elems.Sublist (pairsLhsElems ps) := by
  intro ps
  induction ps with
  | nil => intro h; simp at h
  | cons q qs ih =>
    intro h
    rcases List.mem_cons.mp h with rfl | h'
    · simp only [pairsLhsElems]
      exact List.sublist_append_left p.lhs.elems (pairsLhsElems qs)
    · simp only [pairsLhsElems]
      exact (ih h').trans (List.sublist_append_right q.lhs.elems (pairsLhsElems qs))

theorem elems_sublist_pairsRhs {α : Type} (p : MatchedPair α) :
    ∀ (ps : List (MatchedPair α)), p ∈ ps →
      p.rhs.elems.Sublist (pairsRhsElems ps) := by
  intro ps
  induction ps with
  | nil => intro h; simp at h
  | cons q qs ih =>
    intro h
    rcases List.mem_cons.mp h with rfl | h'
    · simp only [pairsRhsElems]
      exact List.sublist_append_left p.rhs.elems (pairsRhsElems qs)
    · simp only [pairsRhsElems]
      exact (ih h').trans (List.sublist_append_right q.rhs.elems (pairsRhsElems qs))

/-- C7: on every successful match (either matcher), each side of each
emitted pair — in particular every synthesized aggregate — is a sublist of
the corresponding input's payload sequence, so absorbed elements keep
their original relative order. -/
theorem aggregate_order_preserved :
    (∀ (lhs rhs : List (TupleTypeElt Nat)) (ps : List (MatchedPair Nat)),
        tupleMatch lhs rhs = some ps → ∀ p ∈ ps,
        p.lhs.elems.Sublist (tupleTys lhs) ∧ p.rhs.elems.Sublist (tupleTys rhs))
    ∧ (∀ (lhs rhs : List (Param Nat)) (ps : List (MatchedPair Nat)),
        paramMatch lhs rhs = some ps → ∀ p ∈ ps,
        p.lhs.elems.Sublist (paramTys lhs) ∧ p.rhs.elems.Sublist (paramTys rhs)) := by
  constructor
  · intro lhs rhs ps h p hp
    obtain ⟨h1, h2⟩ := tupleMatchAux_cover 0 lhs rhs ps h
    exact ⟨h1 ▸ elems_sublist_pairsLhs p ps hp, h2 ▸ elems_sublist_pairsRhs p ps hp⟩
  · intro lhs rhs ps h p hp
    obtain ⟨h1, h2⟩ := paramMatch_cover lhs rhs ps h
    exact ⟨h1 ▸ elems_sublist_pairsLhs p ps hp, h2 ▸ elems_sublist_pairsRhs p ps hp⟩

/-- Closed instance of C7: the aggregate absorbed from `[C, D]` is in
source order. -/
theorem aggregate_order_preserved_witness :
    (⟨Side.scalar (1 : Nat), Side.aggregate [11, 12], 0⟩ :
        MatchedPair Nat).lhs.elems.Sublist (tupleTys [⟨1, "", true⟩])
      ∧ (⟨Side.scalar (1 : Nat), Side.aggregate [11, 12], 0⟩ :
        MatchedPair Nat).rhs.elems.Sublist
          (tupleTys [⟨11, "", false⟩, ⟨12, "", false⟩]) :=
  aggregate_order_preserved.1 [⟨1, "", true⟩] [⟨11, "", false⟩, ⟨12, "", false⟩]
    [⟨Side.scalar 1, Side.aggregate [11, 12], 0⟩]
    (by simp [tupleMatch, tupleMatchAux, absorbRun, absorbRest, tupleTys])
    _ (by simp)

theorem tupleMatchAux_one_scalar {α : Type} (i : Nat)
    (lhs rhs : List (TupleTypeElt α)) :
    ∀ ps, tupleMatchAux i lhs rhs = some ps → ∀ p ∈ ps,
      p.lhs.isScalar = true ∨ p.rhs.isScalar = true := by
  induction i, lhs, rhs using tupleMatchAux.induct with
  | case1 i =>
    intro ps h
    rw [tupleMatchAux] at h
    simp only [Option.some.injEq] at h
    subst h
    simp
  | case2 i l ls hpack ih =>
    intro ps h
    rw [tupleMatchAux, if_pos hpack] at h
    cases hrec : tupleMatchAux (i + 1) ls ([] : List (TupleTypeElt α)) with
    | none => rw [hrec] at h; simp at h
    | some ps' =>
      rw [hrec] at h
      simp only [Option.map_some', Option.some.injEq] at h
      subst h
      intro p hp
      rcases List.mem_cons.mp hp with rfl | hp'
      · exact Or.inl rfl
      · exact ih ps' hrec p hp'
  | case3 i l ls hpack =>
    intro ps h
    rw [tupleMatchAux, if_neg hpack] at h
    simp at h
  | case4 i r rs hpack ih =>
    intro ps h
    rw [tupleMatchAux, if_pos hpack] at h
    cases hrec : tupleMatchAux i ([] : List (TupleTypeElt α)) rs with
    | none => rw [hrec] at h; simp at h
    | some ps' =>
      rw [hrec] at h
      simp only [Option.map_some', Option.some.injEq] at h
      subst h
      intro p hp
      rcases List.mem_cons.mp hp with rfl | hp'
      · exact Or.inr rfl
      · exact ih ps' hrec p hp'
  | case5 i r rs hpack =>
    intro ps h
    rw [tupleMatchAux, if_neg hpack] at h
    simp at h
  | case6 i l ls r rs hlp hrp ih =>
    intro ps h
    rw [tupleMatchAux, if_pos hlp, if_pos hrp] at h
    cases hrec : tupleMatchAux (i + 1) ls rs with
    | none => rw [hrec] at h; simp at h
    | some ps' =>
      rw [hrec] at h
      simp only [Option.map_some', Option.some.injEq] at h
      subst h
      intro p hp
      rcases List.mem_cons.mp hp with rfl | hp'
      · exact Or.inl rfl
      · exact ih ps' hrec p hp'
  | case7 i l ls r rs hlp hrp ih =>
    intro ps h
    rw [tupleMatchAux, if_pos hlp, if_neg hrp] at h
    cases hrec : tupleMatchAux (i + 1) ls (absorbRest (r :: rs)) with
    | none => rw [hrec] at h; simp at h
    | some ps' =>
      rw [hrec] at h
      simp only [Option.map_some', Option.some.injEq] at h
      subst h
      intro p hp
      rcases List.mem_cons.mp hp with rfl | hp'
      · exact Or.inl rfl
      · exact ih ps' hrec p hp'
  | case8 i l ls r rs hlp hrp ih =>
    intro ps h
    rw [tupleMatchAux, if_neg hlp, if_pos hrp] at h
    cases hrec : tupleMatchAux (i + (absorbRun (l :: ls)).length)
        (absorbRest (l :: ls)) rs with
    | none => rw [hrec] at h; simp at h
    | some ps' =>
      rw [hrec] at h
      simp only [Option.map_some', Option.some.injEq] at h
      subst h
      intro p hp
      rcases List.mem_cons.mp hp with rfl | hp'
      · exact Or.inr rfl
      · exact ih ps' hrec p hp'
  | case9 i l ls r rs hlp hrp hlab ih =>
    intro ps h
    rw [tupleMatchAux, if_neg hlp, if_neg hrp, if_pos hlab] at h
    cases hrec : tupleMatchAux (i + 1) ls rs with
    | none => rw [hrec] at h; simp at h
    | some ps' =>
      rw [hrec] at h
      simp only [Option.map_some', Option.some.injEq] at h
      subst h
      intro p hp
      rcases List.mem_cons.mp hp with rfl | hp'
      · exact Or.inl rfl
      · exact ih ps' hrec p hp'
  | case10 i l ls r rs hlp hrp hlab =>
    intro ps h
    rw [tupleMatchAux, if_neg hlp, if_neg hrp, if_neg hlab] at h
    simp at h

theorem scalarPairs_one_scalar {α : Type} :
    ∀ (ls rs : List (Param α)) (i : Nat) (p : MatchedPair α),
      p ∈ scalarPairs ls rs i → p.lhs.isScalar = true := by
  intro ls
  induction ls with
  | nil => intro rs i p hp; simp [scalarPairs] at hp
  | cons l ls ih =>
    intro rs i p hp
    cases rs with
    | nil => simp [scalarPairs] at hp
    | cons r rs =>
      rcases List.mem_cons.mp hp with rfl | hp'
      · rfl
      · exact ih rs (i + 1) p hp'

theorem middleMatch_one_scalar {α : Type} (lm rm : List (Param α)) (i : Nat)
    (mid : List (MatchedPair α)) (h : middleMatch lm rm i = some mid) :
    ∀ p ∈ mid, p.lhs.isScalar = true ∨ p.rhs.isScalar = true := by
  unfold middleMatch at h
  cases hl : hasPack lm <;> cases hr : hasPack rm <;> rw [hl, hr] at h
  · simp only [] at h
    split at h
    · simp only [Option.some.injEq] at h
      subst h
      intro p hp
      simp at hp
    · simp at h
  · match rm, h with
    | [q], h =>
      simp only [Option.some.injEq] at h
      subst h
      intro p hp
      rcases List.mem_cons.mp hp with rfl | hp'
      · exact Or.inr rfl
      · simp at hp'
  · match lm, h with
    | [p], h =>
      simp only [Option.some.injEq] at h
      subst h
      intro q hq
      rcases List.mem_cons.mp hq with rfl | hq'
      · exact Or.inl rfl
      · simp at hq'
  · match lm, rm, h with
    | [p], [q], h =>
      simp only [Option.some.injEq] at h
      subst h
      intro x hx
      rcases List.mem_cons.mp hx with rfl | hx'
      · exact Or.inl rfl
      · simp at hx'

theorem paramMatch_one_scalar {α : Type} (lhs rhs : List (Param α))
    (ps : List (MatchedPair α)) (h : paramMatch lhs rhs = some ps) :
    ∀ p ∈ ps, p.lhs.isScalar = true ∨ p.rhs.isScalar = true := by
  unfold paramMatch at h
  cases hmid : middleMatch (paramMid lhs rhs) (paramMid rhs lhs)
      (paramPrefixLen lhs rhs) with
  | none => rw [hmid] at h; simp at h
  | some mid =>
    rw [hmid] at h
    simp only [Option.map_some', Option.some.injEq] at h
    subst h
    intro p hp
    rcases List.mem_append.mp hp with hp1 | hp2
    · rcases List.mem_append.mp hp1 with hpre | hmidm
      · exact Or.inl (scalarPairs_one_scalar _ _ _ p hpre)
      · exact middleMatch_one_scalar _ _ _ _ hmid p hmidm
    · exact Or.inl (scalarPairs_one_scalar _ _ _ p hp2)

theorem findIdx_append_cons {β : Type} (f : β → Bool) :
    ∀ (pre : List β) (p : β) (post : List β),
      (∀ e ∈ pre, f e = false) → f p = true →
      (pre ++ p :: post).findIdx f = pre.length := by
  intro pre
  induction pre with
  | nil => intro p post _ hp; simp [List.findIdx_cons, hp]
  | cons a as ih =>
    intro p post hpre hp
    rw [List.cons_append, List.findIdx_cons]
    have ha : f a = false := hpre a (by simp)
    simp only [ha, cond_false, List.length_cons]
    rw [ih p post (fun e he => hpre e (by simp [he])) hp]

theorem paramMatch_single_pack {α : Type} (pre post rhs : List (Param α))
    (p : Param α)
    (hpre : ∀ e ∈ pre, e.isPackExpansion = false)
    (hpost : ∀ e ∈ post, e.isPackExpansion = false)
    (hrhs : ∀ e ∈ rhs, e.isPackExpansion = false)
    (hp : p.isPackExpansion = true)
    (hlen : pre.length + post.length ≤ rhs.length) :
    paramMatch (pre ++ p :: post) rhs =
      some (scalarPairs pre (rhs.take pre.length) 0
        ++ [⟨Side.scalar p.ty,
              Side.aggregate (paramTys ((rhs.drop pre.length).take
                (rhs.length - post.length - pre.length))), pre.length⟩]
        ++ scalarPairs post (rhs.drop (rhs.length - post.length))
            (pre.length + 1)) := by
  have hlhslen : (pre ++ p :: post).length = pre.length + post.length + 1 := by
    simp
    omega
  have hfl : firstPackLen (pre ++ p :: post) = pre.length :=
    findIdx_append_cons _ pre p post hpre hp
  have hfr : firstPackLen rhs = rhs.length := List.findIdx_eq_length.mpr hrhs
  have hpfx : paramPrefixLen (pre ++ p :: post) rhs = pre.length := by
    unfold paramPrefixLen
    rw [hfl, hfr]
    omega
  have hrev : (pre ++ p :: post).reverse = post.reverse ++ p :: pre.reverse := by
    simp
  have htl : trailingScalars (pre ++ p :: post) = post.length := by
    unfold trailingScalars
    rw [hrev, findIdx_append_cons _ post.reverse p pre.reverse
      (fun e he => hpost e (List.mem_reverse.mp he)) hp, List.length_reverse]
  have htr : trailingScalars rhs = rhs.length := by
    unfold trailingScalars
    rw [List.findIdx_eq_length.mpr (fun e he => hrhs e (List.mem_reverse.mp he)),
      List.length_reverse]
  have hsuffix : paramSuffixLen (pre ++ p :: post) rhs = post.length := by
    unfold paramSuffixLen
    rw [htl, htr, hpfx, hlhslen]
    omega
  have hdropl : (pre ++ p :: post).drop pre.length = p :: post :=
    List.drop_left pre (p :: post)
  have hmidl : paramMid (pre ++ p :: post) rhs = [p] := by
    unfold paramMid
    rw [hpfx, hsuffix, hdropl, hlhslen]
    have hone : pre.length + post.length + 1 - post.length - pre.length = 1 := by
      omega
    rw [hone]
    rfl
  have hmidr : paramMid rhs (pre ++ p :: post) =
      (rhs.drop pre.length).take (rhs.length - post.length - pre.length) := by
    unfold paramMid
    rw [paramPrefixLen_comm (pre ++ p :: post) rhs,
      paramSuffixLen_comm (pre ++ p :: post) rhs, hpfx, hsuffix]
  have hpackl : hasPack [p] = true := by
    simp [hasPack, hp]
  have hpackr : hasPack ((rhs.drop pre.length).take
      (rhs.length - post.length - pre.length)) = false := by
    unfold hasPack
    rw [List.any_eq_false]
    intro x hx
    simp [hrhs x (List.mem_of_mem_drop (List.mem_of_mem_take hx))]
  have hmm : middleMatch (paramMid (pre ++ p :: post) rhs)
      (paramMid rhs (pre ++ p :: post)) pre.length =
      some [⟨Side.scalar p.ty,
        Side.aggregate (paramTys ((rhs.drop pre.length).take
          (rhs.length - post.length - pre.length))), pre.length⟩] := by
    rw [hmidl, hmidr]
    unfold middleMatch
    rw [hpackl, hpackr]
  have htakel : (pre ++ p :: post).take pre.length = pre :=
    List.take_left pre (p :: post)
  have hdropsuf : (pre ++ p :: post).drop ((pre ++ p :: post).length - post.length)
      = post := by
    rw [hlhslen]
    have harith : pre.length + post.length + 1 - post.length = pre.length + 1 := by
      omega
    rw [harith]
    have hsplit : pre ++ p :: post = (pre ++ [p]) ++ post := by
      simp
    rw [hsplit]
    exact List.drop_left' (by simp)
  have hidx : (pre ++ p :: post).length - post.length = pre.length + 1 := by
    rw [hlhslen]
    omega
  unfold paramMatch
  rw [hpfx, hsuffix, hmm]
  simp only [Option.map_some', Option.some.injEq]
  rw [htakel, hdropsuf, hidx]

theorem paramMatch_single_pack_right {α : Type} (pre post lhs : List (Param α))
    (p : Param α)
    (hpre : ∀ e ∈ pre, e.isPackExpansion = false)
    (hpost : ∀ e ∈ post, e.isPackExpansion = false)
    (hlhs : ∀ e ∈ lhs, e.isPackExpansion = false)
    (hp : p.isPackExpansion = true)
    (hlen : pre.length + post.length ≤ lhs.length) :
    paramMatch lhs (pre ++ p :: post) =
      some (scalarPairs (lhs.take pre.length) pre 0
        ++ [⟨Side.aggregate (paramTys ((lhs.drop pre.length).take
              (lhs.length - post.length - pre.length))), Side.scalar p.ty,
              pre.length⟩]
        ++ scalarPairs (lhs.drop (lhs.length - post.length)) post
            (lhs.length - post.length)) := by
  have hrhslen : (pre ++ p :: post).length = pre.length + post.length + 1 := by
    simp
    omega
  have hfr : firstPackLen (pre ++ p :: post) = pre.length :=
    findIdx_append_cons _ pre p post hpre hp
  have hfl : firstPackLen lhs = lhs.length := List.findIdx_eq_length.mpr hlhs
  have hpfx : paramPrefixLen lhs (pre ++ p :: post) = pre.length := by
    unfold paramPrefixLen
    rw [hfl, hfr]
    omega
  have hrev : (pre ++ p :: post).reverse = post.reverse ++ p :: pre.reverse := by
    simp
  have htr : trailingScalars (pre ++ p :: post) = post.length := by
    unfold trailingScalars
    rw [hrev, findIdx_append_cons _ post.reverse p pre.reverse
      (fun e he => hpost e (List.mem_reverse.mp he)) hp, List.length_reverse]
  have htl : trailingScalars lhs = lhs.length := by
    unfold trailingScalars
    rw [List.findIdx_eq_length.mpr (fun e he => hlhs e (List.mem_reverse.mp he)),
      List.length_reverse]
  have hsuffix : paramSuffixLen lhs (pre ++ p :: post) = post.length := by
    unfold paramSuffixLen
    rw [htl, htr, hpfx, hrhslen]
    omega
  have hdropr : (pre ++ p :: post).drop pre.length = p :: post :=
    List.drop_left pre (p :: post)
  have hmidr : paramMid (pre ++ p :: post) lhs = [p] := by
    unfold paramMid
    rw [paramPrefixLen_comm lhs (pre ++ p :: post),
      paramSuffixLen_comm lhs (pre ++ p :: post), hpfx, hsuffix, hdropr, hrhslen]
    have hone : pre.length + post.length + 1 - post.length - pre.length = 1 := by
      omega
    rw [hone]
    rfl
  have hmidl : paramMid lhs (pre ++ p :: post) =
      (lhs.drop pre.length).take (lhs.length - post.length - pre.length) := by
    unfold paramMid
    rw [hpfx, hsuffix]
  have hpackr : hasPack [p] = true := by
    simp [hasPack, hp]
  have hpackl : hasPack ((lhs.drop pre.length).take
      (lhs.length - post.length - pre.length)) = false := by
    unfold hasPack
    rw [List.any_eq_false]
    intro x hx
    simp [hlhs x (List.mem_of_mem_drop (List.mem_of_mem_take hx))]
  have hmm : middleMatch (paramMid lhs (pre ++ p :: post))
      (paramMid (pre ++ p :: post) lhs) pre.length =
      some [⟨Side.aggregate (paramTys ((lhs.drop pre.length).take
          (lhs.length - post.length - pre.length))), Side.scalar p.ty,
          pre.length⟩] := by
    rw [hmidl, hmidr]
    unfold middleMatch
    rw [hpackl, hpackr]
  have htaker : (pre ++ p :: post).take pre.length = pre :=
    List.take_left pre (p :: post)
  have hdropsuf : (pre ++ p :: post).drop ((pre ++ p :: post).length - post.length)
      = post := by
    rw [hrhslen]
    have harith : pre.length + post.length + 1 - post.length = pre.length + 1 := by
      omega
    rw [harith]
    have hsplit : pre ++ p :: post = (pre ++ [p]) ++ post := by
      simp
    rw [hsplit]
    exact List.drop_left' (by simp)
  unfold paramMatch
  rw [hpfx, hsuffix, hmm]
  simp only [Option.map_some', Option.some.injEq]
  rw [htaker, hdropsuf]

/-- C3: in `ParamPackMatcher`, with the single pack expansion on either
side (the other side pack-free), matching pairs the common scalar prefix,
lets the pack expansion absorb the entire middle region of the other side
as one `MatchedPair`, then pairs the common scalar suffix; in particular
`[X, Pack, Y]` against `[X, P, Q, Y]` gives exactly (X,X), (Pack,[P,Q]),
(Y,Y), in that order. -/
theorem param_prefix_pack_suffix :
    (∀ (pre post rhs : List (Param Nat)) (p : Param Nat),
        (∀ e ∈ pre, e.isPackExpansion = false) →
        (∀ e ∈ post, e.isPackExpansion = false) →
        (∀ e ∈ rhs, e.isPackExpansion = false) →
        p.isPackExpansion = true →
        pre.length + post.length ≤ rhs.length →
        paramMatch (pre ++ p :: post) rhs =
          some (scalarPairs pre (rhs.take pre.length) 0
            ++ [⟨Side.scalar p.ty,
                  Side.aggregate (paramTys ((rhs.drop pre.length).take
                    (rhs.length - post.length - pre.length))), pre.length⟩]
            ++ scalarPairs post (rhs.drop (rhs.length - post.length))
                (pre.length + 1)))
    ∧ (∀ (pre post lhs : List (Param Nat)) (p : Param Nat),
        (∀ e ∈ pre, e.isPackExpansion = false) →
        (∀ e ∈ post, e.isPackExpansion = false) →
        (∀ e ∈ lhs, e.isPackExpansion = false) →
        p.isPackExpansion = true →
        pre.length + post.length ≤ lhs.length →
        paramMatch lhs (pre ++ p :: post) =
          some (scalarPairs (lhs.take pre.length) pre 0
            ++ [⟨Side.aggregate (paramTys ((lhs.drop pre.length).take
                  (lhs.length - post.length - pre.length))), Side.scalar p.ty,
                  pre.length⟩]
            ++ scalarPairs (lhs.drop (lhs.length - post.length)) post
                (lhs.length - post.length)))
    ∧ paramMatch [⟨0, false⟩, ⟨1, true⟩, ⟨2, false⟩]
        [⟨10, false⟩, ⟨11, false⟩, ⟨12, false⟩, ⟨13, false⟩]
      = some [⟨Side.scalar 0, Side.scalar 10, 0⟩,
              ⟨Side.scalar 1, Side.aggregate [11, 12], 1⟩,
              ⟨Side.scalar 2, Side.scalar 13, 2⟩] :=
  ⟨fun pre post rhs p h1 h2 h3 h4 h5 =>
      paramMatch_single_pack pre post rhs p h1 h2 h3 h4 h5,
    fun pre post lhs p h1 h2 h3 h4 h5 =>
      paramMatch_single_pack_right pre post lhs p h1 h2 h3 h4 h5,
    by decide⟩

/-- Closed instance of C3, both directions: `[X, Pack]` against `[P, Q]`
pairs `(X, P)` and lets the pack absorb `[Q]`; `[P, Q]` against `[X, Pack]`
pairs `(P, X)` and lets the pack absorb `[Q]`. -/
theorem param_prefix_pack_suffix_witness :
    (paramMatch ([⟨(5 : Nat), false⟩] ++ ⟨6, true⟩ :: [])
        [⟨7, false⟩, ⟨8, false⟩]
      = some (scalarPairs [⟨(5 : Nat), false⟩]
            (([⟨(7 : Nat), false⟩, ⟨8, false⟩] : List (Param Nat)).take 1) 0
          ++ [⟨Side.scalar 6,
                Side.aggregate (paramTys
                  ((([⟨(7 : Nat), false⟩, ⟨8, false⟩] : List (Param Nat)).drop 1).take
                    (2 - 0 - 1))), 1⟩]
          ++ scalarPairs []
              (([⟨(7 : Nat), false⟩, ⟨8, false⟩] : List (Param Nat)).drop (2 - 0)) 2))
    ∧ (paramMatch [⟨(7 : Nat), false⟩, ⟨8, false⟩]
        ([⟨(5 : Nat), false⟩] ++ ⟨6, true⟩ :: [])
      = some (scalarPairs
            (([⟨(7 : Nat), false⟩, ⟨8, false⟩] : List (Param Nat)).take 1)
            [⟨(5 : Nat), false⟩] 0
          ++ [⟨Side.aggregate (paramTys
                  ((([⟨(7 : Nat), false⟩, ⟨8, false⟩] : List (Param Nat)).drop 1).take
                    (2 - 0 - 1))), Side.scalar 6, 1⟩]
          ++ scalarPairs
              (([⟨(7 : Nat), false⟩, ⟨8, false⟩] : List (Param Nat)).drop (2 - 0))
              [] (2 - 0))) := by
  constructor
  · exact param_prefix_pack_suffix.1 [⟨5, false⟩] [] [⟨7, false⟩, ⟨8, false⟩]
      ⟨6, true⟩ (by decide) (by decide) (by decide) rfl (by decide)
  · exact param_prefix_pack_suffix.2.1 [⟨5, false⟩] [] [⟨7, false⟩, ⟨8, false⟩]
      ⟨6, true⟩ (by decide) (by decide) (by decide) rfl (by decide)

/-- C8: every `MatchedPair` produced by either matcher has at most one
aggregate side: at least one of its sides is a plain scalar payload, so an
aggregate is never paired against another aggregate. -/
theorem pair_at_most_one_aggregate :
    (∀ (lhs rhs : List (TupleTypeElt Nat)) (ps : List (MatchedPair Nat)),
        tupleMatch lhs rhs = some ps → ∀ p ∈ ps,
        p.lhs.isScalar = true ∨ p.rhs.isScalar = true)
    ∧ (∀ (lhs rhs : List (Param Nat)) (ps : List (MatchedPair Nat)),
        paramMatch lhs rhs = some ps → ∀ p ∈ ps,
        p.lhs.isScalar = true ∨ p.rhs.isScalar = true) :=
  ⟨fun lhs rhs ps h => tupleMatchAux_one_scalar 0 lhs rhs ps h,
    fun lhs rhs ps h => paramMatch_one_scalar lhs rhs ps h⟩

/-- Closed instance of C8: the absorbed pair of the absorption example has
a scalar left side. -/
theorem pair_at_most_one_aggregate_witness :
    (⟨Side.scalar (1 : Nat), Side.aggregate [11, 12], 0⟩ :
        MatchedPair Nat).lhs.isScalar = true
      ∨ (⟨Side.scalar (1 : Nat), Side.aggregate [11, 12], 0⟩ :
        MatchedPair Nat).rhs.isScalar = true :=
  pair_at_most_one_aggregate.1 [⟨1, "", true⟩] [⟨11, "", false⟩, ⟨12, "", false⟩]
    [⟨Side.scalar 1, Side.aggregate [11, 12], 0⟩]
    (by simp [tupleMatch, tupleMatchAux, absorbRun, absorbRest, tupleTys])
    _ (by simp)

end PackMatcher
